import Mathlib

/-!
Shallow embedding of the Algo_backtesting repository (panel analytics,
simulated trade execution, KPI reduction) and proofs about the claims of
its specification.

Conventions used throughout:

* Dates and ticker symbols are modelled as natural numbers; only their
  identity and order matter to the code.
* A floating-point value that may be NaN is modelled as `Option ℚ`
  (`none` = NaN / "no value"); arithmetic on such cells propagates `none`
  exactly as float arithmetic propagates NaN.  Exact real arithmetic of the
  source is modelled over `ℚ`.
* pandas `Series.get(key, default)` returns the stored value (possibly NaN)
  when the key is present and the default only when the key is absent; this
  distinction is kept by modelling a series row as an association list whose
  stored values are `Option ℚ`.
* `DataFrame.pct_change` is modelled with its default `fill_method='pad'`
  behaviour: columns are forward-filled before the shifted quotient is taken.
-/

namespace Algo

/-- One float cell: `none` models NaN / pandas "no value". -/
abbrev Cell := Option ℚ

/-- Forward fill (`pad`) a column, given the last value seen so far. -/
def ffillFrom (last : Cell) : List Cell → List Cell
  | [] => []
  | c :: cs =>
    match c with
    | some v => some v :: ffillFrom (some v) cs
    | none => last :: ffillFrom last cs

/-- Forward fill (`pad`) a column. -/
def ffill (col : List Cell) : List Cell :=
  ffillFrom none col

/-- pandas `pct_change(period)` with the default `fill_method='pad'`:
forward fill, then `out[i] = f[i] / f[i-period] - 1` for `i ≥ period`,
NaN when either operand is still missing or when `i < period`. -/
def pctChangePad (period : ℕ) (col : List Cell) : List Cell :=
  let f := ffill col
  (List.range col.length).map (fun i =>
    if i < period then none
    else
      match f.getD i none, f.getD (i - period) none with
      | some cur, some prev => some (cur / prev - 1)
      | _, _ => none)

/-- pandas `rolling(window, min_periods).mean()`: mean of the defined values
among the last `window` rows, NaN when fewer than `minPeriods` of them are
defined. -/
def rollingMean (window minPeriods : ℕ) (col : List Cell) : List Cell :=
  (List.range col.length).map (fun i =>
    let wnd := ((col.take (i + 1)).drop (i + 1 - window)).filterMap id
    if minPeriods ≤ wnd.length then some (wnd.sum / (wnd.length : ℚ)) else none)

/-- pandas `fillna(d)` on one cell: NaN becomes `d`, defined values are kept. -/
def fillnaCell (d : ℚ) (c : Cell) : Cell :=
  some (c.getD d)

/-- Running product, seeded with an accumulator. -/
def cumprodFrom (acc : ℚ) : List ℚ → List ℚ
  | [] => []
  | x :: xs => (acc * x) :: cumprodFrom (acc * x) xs

/-- pandas `cumprod` over a fully defined column. -/
def cumprod (l : List ℚ) : List ℚ :=
  cumprodFrom 1 l

/-! ## Simulation Engine (`src/backtester/backtester.py`)

The `Backtester` consumes a `(date, ticker)`-indexed panel and a signal
table.  `run` walks `sorted(set(panel.index.get_level_values(0)))`; on each
date it looks up that date's per-ticker `close` series and the day's signals
grouped by ticker (pandas `groupby` iterates tickers in ascending order and
the first signal row of each group is used). -/

/-- The panel as consumed by `Backtester.run`: the raw first index level
(dates, possibly repeated) and, for each date, the `close` series as an
association list `ticker ↦ close` whose values may be NaN. -/
structure BTPanel where
  rawDates : List ℕ
  closeRow : ℕ → List (ℕ × Cell)

/-- `sorted(set(self.panel.index.get_level_values(0)))`. -/
def dateAxis (p : BTPanel) : List ℕ :=
  List.insertionSort (· ≤ ·) p.rawDates.dedup

/-- pandas `Series.get(t, default)`: the stored value (possibly NaN) when the
key is present, the default when it is absent. -/
def seriesGet (row : List (ℕ × Cell)) (t : ℕ) (dflt : Cell) : Cell :=
  match row.find? (fun e => e.1 == t) with
  | some e => e.2
  | none => dflt

/-- The raw cell stored for ticker `t`: `none` = key absent,
`some none` = key present with NaN, `some (some c)` = defined close `c`. -/
def rowCell (row : List (ℕ × Cell)) (t : ℕ) : Option Cell :=
  (row.find? (fun e => e.1 == t)).map (fun e => e.2)

/-- One signal row `(date, ticker, signal)` of the external signal table. -/
structure SignalRow where
  date : ℕ
  ticker : ℕ
  signal : ℤ
deriving DecidableEq

/-- The tickers having at least one signal on date `dt`, in ascending order —
pandas `groupby("ticker")` iterates group keys sorted ascending. -/
def todaysTickers (signals : List SignalRow) (dt : ℕ) : List ℕ :=
  List.insertionSort (· ≤ ·) (((signals.filter (fun s => s.date == dt)).map (fun s => s.ticker)).dedup)

/-- `row["signal"].iloc[0]`: the first signal (in table order) for ticker `t`
on date `dt`. -/
def firstSignal (signals : List SignalRow) (dt t : ℕ) : Option ℤ :=
  ((signals.filter (fun s => s.date == dt && s.ticker == t)).head?).map (fun s => s.signal)

/-- An open position: `positions[t] = (qty, entry_price)`. -/
structure Position where
  qty : ℚ
  entry : ℚ
deriving DecidableEq

/-- The simulation state carried across dates: cash and the open positions
(association list in dict insertion order). -/
structure BTState where
  cash : ℚ
  positions : List (ℕ × Position)
deriving DecidableEq

/-- Dict membership test `t in positions` / lookup. -/
def posLookup (ps : List (ℕ × Position)) (t : ℕ) : Option Position :=
  (ps.find? (fun e => e.1 == t)).map (fun e => e.2)

/-- Processing the (first) signal of one ticker on one date, i.e. one
iteration of the `for t, row in todays_signals.groupby("ticker")` loop of
`Backtester.run`:
signals with a NaN (or absent) close are skipped; `signal == 1` on a ticker
not held buys `qty = cash / (10 * price)` at cost
`qty * price * (1 + slippage)`; `signal == -1` on a held ticker sells the
full position, crediting `qty * price * (1 - slippage)`. -/
def tradeStep (slip : ℚ) (row : List (ℕ × Cell)) (signals : List SignalRow) (dt : ℕ)
    (st : BTState) (t : ℕ) : BTState :=
  match firstSignal signals dt t with
  | none => st
  | some sig =>
    match seriesGet row t none with
    | none => st
    | some price =>
      if sig = 1 ∧ posLookup st.positions t = none then
        let qty := st.cash / (10 * price)
        let cost := qty * price * (1 + slip)
        { cash := st.cash - cost, positions := st.positions ++ [(t, ⟨qty, price⟩)] }
      else
        if sig = -1 then
          match posLookup st.positions t with
          | some pos =>
            { cash := st.cash + pos.qty * price * (1 - slip),
              positions := st.positions.eraseP (fun e => e.1 == t) }
          | none => st
        else st

/-- All trades of one date: fold `tradeStep` over the day's tickers. -/
def dayTrades (slip : ℚ) (row : List (ℕ × Cell)) (signals : List SignalRow) (dt : ℕ)
    (st : BTState) : BTState :=
  (todaysTickers signals dt).foldl (tradeStep slip row signals dt) st

/-- Mark-to-market at the end of one date:
`mtm = cash; for t, (qty, entry) in positions: mtm += qty * todays_prices.get(t, entry)`.
A NaN price (ticker present in the series with no value) makes the float
total NaN, which `none` models; an absent ticker falls back to the entry
price. -/
def markToMarket (row : List (ℕ × Cell)) (st : BTState) : Cell :=
  st.positions.foldl
    (fun acc e =>
      match acc, seriesGet row e.1 (some e.2.entry) with
      | some a, some p => some (a + e.2.qty * p)
      | _, _ => none)
    (some st.cash)

/-- The date loop of `Backtester.run`, returning the final state and the
equity points appended along the way. -/
def runFrom (p : BTPanel) (signals : List SignalRow) (slip : ℚ) :
    BTState → List ℕ → BTState × List (ℕ × Cell)
  | st, [] => (st, [])
  | st, dt :: rest =>
    let st' := dayTrades slip (p.closeRow dt) signals dt st
    let r := runFrom p signals slip st' rest
    (r.1, (dt, markToMarket (p.closeRow dt) st') :: r.2)

/-- `Backtester.run`: the produced equity curve, one `(date, equity)` point
per date of the axis. -/
def Backtester.run (p : BTPanel) (signals : List SignalRow) (cash0 slip : ℚ) :
    List (ℕ × Cell) :=
  (runFrom p signals slip { cash := cash0, positions := [] } (dateAxis p)).2

/-- The sequence of simulation states, one per date of the axis: the state
observed right after that date's trades were applied (the state each equity
point is marked from). -/
def runStatesFrom (p : BTPanel) (signals : List SignalRow) (slip : ℚ) :
    BTState → List ℕ → List BTState
  | _, [] => []
  | st, dt :: rest =>
    let st' := dayTrades slip (p.closeRow dt) signals dt st
    st' :: runStatesFrom p signals slip st' rest

/-- The per-date states of `Backtester.run` from the starting state. -/
def runStates (p : BTPanel) (signals : List SignalRow) (cash0 slip : ℚ) : List BTState :=
  runStatesFrom p signals slip { cash := cash0, positions := [] } (dateAxis p)

/-- The equity points of the run are exactly the mark-to-market values of the
per-date states. -/
theorem runFrom_eq_zipWith (p : BTPanel) (signals : List SignalRow) (slip : ℚ) :
    ∀ (dates : List ℕ) (st : BTState),
      (runFrom p signals slip st dates).2 =
        List.zipWith (fun dt s => (dt, markToMarket (p.closeRow dt) s)) dates
          (runStatesFrom p signals slip st dates)
  | [], _ => rfl
  | dt :: rest, st => by
    simp [runFrom, runStatesFrom, runFrom_eq_zipWith p signals slip rest]

/-! ## KPI Engine (`src/backtester/kpi_report.py`)

`KPIReport.summary` reduces the equity column to a summary dict.  The source
performs no length check: the only failing operation is `iloc[-1]` /
`iloc[0]`, which raises on an empty curve.  Fields whose float value involves
an irrational operation are represented by the rational data determining
them: annualized return is `annRetBase ^ annRetExp − 1` with
`annRetBase = 1 + total return` and `annRetExp = 252 / len(eq)`, and
annualized volatility is `sqrt variance252` where
`variance252 = 252 ·` (sample variance of the period returns,
NaN — i.e. `none` — when fewer than two returns exist, as pandas `std` uses
`ddof = 1`).  `sharpeIsNaN` records when the source's Sharpe value is float
NaN: the guard `vol != 0` is `True` for NaN volatility (so `ann / NaN = NaN`
is computed) and the `else` branch yields NaN when volatility is exactly 0. -/

/-- `eq["equity"].pct_change().fillna(0)`: the period-return series, first
entry 0. -/
def kpiRets (eq : List ℚ) : List ℚ :=
  match eq with
  | [] => []
  | _ :: _ => 0 :: List.zipWith (fun prev cur => cur / prev - 1) eq eq.tail

/-- Sample variance (`ddof = 1`), `none` (NaN) on fewer than two values. -/
def sampleVar (xs : List ℚ) : Option ℚ :=
  if xs.length < 2 then none
  else
    some (((xs.map (fun x => (x - xs.sum / (xs.length : ℚ)) ^ 2)).sum) / ((xs.length : ℚ) - 1))

/-- Running maximum (`cummax`), seeded with the maximum so far. -/
def cummaxFrom (m : ℚ) : List ℚ → List ℚ
  | [] => []
  | x :: xs => max m x :: cummaxFrom (max m x) xs

/-- `(eq / eq.cummax() - 1).min()`, 0 on an empty curve (unreached). -/
def drawdownMin (eq : List ℚ) : ℚ :=
  match eq with
  | [] => 0
  | e0 :: _ =>
    match List.zipWith (fun e m => e / m - 1) eq (cummaxFrom e0 eq) with
    | [] => 0
    | d :: ds => ds.foldl min d

/-- The KPI summary row.  See the section comment for the reading of the
real-valued fields. -/
structure KPISummary where
  totalRet : ℚ
  annRetBase : ℚ
  annRetExp : ℚ
  variance252 : Option ℚ
  sharpeIsNaN : Bool
  maxDrawdown : ℚ
deriving DecidableEq

/-- `KPIReport.summary`: `none` models the raised `IndexError` — the only
failure path of the source, reached exactly on an empty curve. -/
def KPIReport.summary (eq : List ℚ) : Option KPISummary :=
  match eq with
  | [] => none
  | e0 :: rest =>
    let rets := kpiRets eq
    let totalRet := (e0 :: rest).getLast (by simp) / e0 - 1
    let variance252 := (sampleVar rets).map (fun v => v * 252)
    some
      { totalRet := totalRet
        annRetBase := 1 + totalRet
        annRetExp := 252 / ((eq.length : ℚ))
        variance252 := variance252
        sharpeIsNaN := variance252 = none ∨ variance252 = some 0
        maxDrawdown := drawdownMin eq }

/-! ## Ranking Engine (`src/backtester/rank_handler.py`)

`RankingHandler` works on `panel['close'].unstack(level=1)` (and the
`volume` analogue): a rectangular date × ticker table, modelled as a list of
`(ticker, column)` pairs whose columns all have the panel's date-axis
length.  Cells may be NaN. -/

/-- `momentum(period)`: `close.pct_change(period).fillna(0)`. -/
def RankingHandler.momentum (cols : List (ℕ × List Cell)) (period : ℕ) :
    List (ℕ × List Cell) :=
  cols.map (fun c => (c.1, (pctChangePad period c.2).map (fillnaCell 0)))

/-- `volume_rank(period)`: `volume.rolling(period, min_periods=1).mean().fillna(0)`. -/
def RankingHandler.volumeRank (cols : List (ℕ × List Cell)) (period : ℕ) :
    List (ℕ × List Cell) :=
  cols.map (fun c => (c.1, (rollingMean period 1 c.2).map (fillnaCell 0)))

/-- The two supported relative-strength methods; any other string raises
`ValueError` in the source (no claim concerns that branch). -/
inductive RSMethod where
  | daily
  | cumulative
deriving DecidableEq

/-- The row indices kept by `close.loc[close[benchmark].notna()]`. -/
def keptRows (bcol : List Cell) : List ℕ :=
  (List.range bcol.length).filter (fun i => (bcol.getD i none).isSome)

/-- Restrict a column to the kept row indices. -/
def restrictCol (kept : List ℕ) (col : List Cell) : List Cell :=
  kept.map (fun i => col.getD i none)

/-- One column of `returns = close.pct_change().fillna(0)` on the
benchmark-restricted frame. -/
def rsRets (kept : List ℕ) (col : List Cell) : List ℚ :=
  (pctChangePad 1 (restrictCol kept col)).map (fun c => c.getD 0)

/-- One column of the cumulative-return index `(1 + returns).cumprod()`. -/
def rsCum (kept : List ℕ) (col : List Cell) : List ℚ :=
  cumprod ((rsRets kept col).map (fun r => 1 + r))

/-- `relative_strength(benchmark, method)`: restrict to dates where the
benchmark close is defined, compute `returns = close.pct_change().fillna(0)`
per column, then either the per-day spread versus the benchmark column
(`daily`) or the ratio of `(1 + returns).cumprod()` columns (`cumulative`);
the benchmark column is dropped from the result.  `none` models the raised
`ValueError` when the benchmark is not a column of the panel. -/
def RankingHandler.relativeStrength (cols : List (ℕ × List Cell)) (bench : ℕ)
    (method : RSMethod) : Option (List (ℕ × List ℚ)) :=
  match cols.find? (fun c => c.1 == bench) with
  | none => none
  | some bcol =>
    match method with
    | RSMethod.daily =>
      some ((cols.filter (fun c => ¬ c.1 == bench)).map (fun c =>
        (c.1, List.zipWith (fun x b => x - b)
          (rsRets (keptRows bcol.2) c.2) (rsRets (keptRows bcol.2) bcol.2))))
    | RSMethod.cumulative =>
      some ((cols.filter (fun c => ¬ c.1 == bench)).map (fun c =>
        (c.1, List.zipWith (fun x b => x / b)
          (rsCum (keptRows bcol.2) c.2) (rsCum (keptRows bcol.2) bcol.2))))

/-- The norming of one ticker's cells of a metric row, keeping the column
position: `row.dropna()` with the surviving values. -/
def definedCellsFrom (i : ℕ) : List Cell → List (ℕ × ℚ)
  | [] => []
  | none :: cs => definedCellsFrom (i + 1) cs
  | some v :: cs => (i, v) :: definedCellsFrom (i + 1) cs

/-- `row.dropna()`: the defined cells of a row with their column positions. -/
def definedCells (r : List Cell) : List (ℕ × ℚ) :=
  definedCellsFrom 0 r

/-- Descending comparison on the value component, used by
`row.sort_values(ascending=False)`. -/
def descVal (a b : ℕ × ℚ) : Prop := b.2 ≤ a.2

instance : DecidableRel descVal := fun a b => inferInstanceAs (Decidable (b.2 ≤ a.2))

instance : IsTotal (ℕ × ℚ) descVal := ⟨fun a b => le_total b.2 a.2⟩

instance : IsTrans (ℕ × ℚ) descVal := ⟨fun _ _ _ h1 h2 => le_trans h2 h1⟩

/-- `row.dropna().sort_values(ascending=False).head(n)` together with the
dead `if row.empty` guard of the source (dead because rows of the filtered
table always keep a defined value). -/
def topOfRow (r : List Cell) (n : ℕ) : List (ℕ × ℚ) :=
  if (definedCells r).isEmpty then []
  else (List.insertionSort descVal (definedCells r)).take n

/-- A metric table row is kept by `metric.dropna(how='all')` iff some cell is
defined. -/
def rowHasValue (r : List Cell) : Bool :=
  r.any (fun c => c.isSome)

/-- `metric.dropna(how='all')`: the rows that keep at least one defined
value. -/
def keptTable (metric : List (ℕ × List Cell)) : List (ℕ × List Cell) :=
  metric.filter (fun r => rowHasValue r.2)

/-- The row `get_top_n` ranks: the requested date's row when found, else the
last surviving row (also used when the date is omitted). -/
def targetRow (kt : List (ℕ × List Cell)) (lastRow : ℕ × List Cell) (date : Option ℕ) :
    ℕ × List Cell :=
  match date with
  | none => lastRow
  | some d =>
    match kt.find? (fun r => r.1 == d) with
    | some r => r
    | none => lastRow

/-- `get_top_n(metric, n, date)`: drop all-NaN rows; empty result if nothing
remains; select the requested date's row, falling back to the last remaining
row when the date is omitted or not found; return the `n` largest defined
values of that row, sorted descending.  The metric table is modelled as rows
`(date, cells)` with cells in the table's native column order. -/
def RankingHandler.getTopN (metric : List (ℕ × List Cell)) (n : ℕ) (date : Option ℕ) :
    List (ℕ × ℚ) :=
  match (keptTable metric).getLast? with
  | none => []
  | some lastRow => topOfRow (targetRow (keptTable metric) lastRow date).2 n

/-! ## Breadth Engine (`src/backtester/breadth.py`)

`BreadthCalculator.compute` works on the aligned close table produced by
`_get_close_data`: a rectangular date × ticker grid (every column reindexed
to the common target date axis).  It is modelled as the number of dates `nD`
together with the list of ticker columns, each of length `nD`. -/

/-- Is the cell a defined value?  (`notna`). -/
def cellSome (c : Cell) : Bool := c.isSome

/-- `returns > 0` on one cell: `False` for NaN. -/
def cellPos (c : Cell) : Bool :=
  match c with
  | some v => decide (0 < v)
  | none => false

/-- `returns < 0` on one cell: `False` for NaN. -/
def cellNeg (c : Cell) : Bool :=
  match c with
  | some v => decide (v < 0)
  | none => false

/-- `returns == 0` on one cell: `False` for NaN. -/
def cellZero (c : Cell) : Bool :=
  match c with
  | some v => decide (v = 0)
  | none => false

/-- Row-wise count over the columns: `(pred applied to row i).sum(axis=1)`. -/
def countAt (cols : List (List Cell)) (i : ℕ) (p : Cell → Bool) : ℕ :=
  (cols.filter (fun col => p (col.getD i none))).length

/-- Row-wise count over paired columns (close paired with its own SMA). -/
def countPairAt (cols smaCols : List (List Cell)) (i : ℕ) (p : Cell → Cell → Bool) : ℕ :=
  ((cols.zip smaCols).filter (fun cs => p (cs.1.getD i none) (cs.2.getD i none))).length

/-- `close > sma` on one pair of cells: `False` unless both are defined. -/
def closeAbove (c m : Cell) : Bool :=
  match c, m with
  | some cv, some mv => decide (mv < cv)
  | _, _ => false

/-- `close.notna() & sma.notna()` on one pair of cells. -/
def bothDefined (c m : Cell) : Bool :=
  c.isSome && m.isSome

/-- One output row of the breadth table; every field is optional because the
masking step can reset the whole row to NaN. -/
structure BreadthRow where
  advancers : Option ℕ
  decliners : Option ℕ
  unchanged : Option ℕ
  totalStocks : Option ℕ
  advRatio : Option ℚ
  pctAboveSma : Option ℚ
  validForSma : Option ℕ
deriving DecidableEq

/-- The all-NaN row produced by `result.loc[~sufficient_data_mask, :] = np.nan`. -/
def maskedRow : BreadthRow :=
  ⟨none, none, none, none, none, none, none⟩

/-- `BreadthCalculator.compute(sma_period, ·, min_stocks_for_calculation)`:
`none` models the `ValueError` raised for `sma_period < 1`; an empty close
table short-circuits to an empty result.  Per date: counts of positive /
negative / zero single-period returns (`pct_change`, NaN excluded from every
count), `adv_ratio = adv / (adv + dec)` (NaN when no movers),
`pct_above_sma = above / valid` over the `sma_period`-rolling mean with
`min_periods = max(1, sma_period // 2)` (NaN when no valid pair), and the
final hard mask that turns the whole row NaN when the count of valid
returns is below `minStocks`. -/
def BreadthCalculator.compute (nD : ℕ) (cols : List (List Cell))
    (smaPeriod minStocks : ℕ) : Option (List BreadthRow) :=
  if smaPeriod < 1 then none
  else if cols.isEmpty ∨ nD = 0 then some []
  else
    let retCols := cols.map (pctChangePad 1)
    let smaCols := cols.map (rollingMean smaPeriod (max 1 (smaPeriod / 2)))
    some ((List.range nD).map (fun i =>
      let valid := countAt retCols i cellSome
      if valid < minStocks then maskedRow
      else
        let adv := countAt retCols i cellPos
        let dec := countAt retCols i cellNeg
        let unch := countAt retCols i cellZero
        let above := countPairAt cols smaCols i closeAbove
        let validSma := countPairAt cols smaCols i bothDefined
        { advancers := some adv
          decliners := some dec
          unchanged := some unch
          totalStocks := some valid
          advRatio := if 0 < adv + dec then some ((adv : ℚ) / ((adv : ℚ) + (dec : ℚ))) else none
          pctAboveSma :=
            if 0 < validSma then some ((above : ℚ) / (validSma : ℚ)) else none
          validForSma := some validSma }))

/-- One appended `pct_above_sma_{period}` column of the multi-window variant,
computed from the raw close grid with the same per-window logic — note that
the source appends it after `compute`'s masking step, without re-applying the
mask. -/
def extraSmaColumn (nD : ℕ) (cols : List (List Cell)) (period : ℕ) : List Cell :=
  let smaCols := cols.map (rollingMean period (max 1 (period / 2)))
  (List.range nD).map (fun i =>
    let above := countPairAt cols smaCols i closeAbove
    let validC := countPairAt cols smaCols i bothDefined
    if 0 < validC then some ((above : ℚ) / (validC : ℚ)) else none)

/-- `BreadthCalculator.compute_multiple_sma(sma_periods, ·)`: `none` models
the `ValueError` on an empty period list; the base table is
`compute(sma_periods[0])` with the default `min_stocks_for_calculation = 1`;
each further period `≥ 1` appends an unmasked `pct_above_sma_{period}`
column (in the source a period equal to an existing column name would
overwrite that column; the model keeps base and appended columns apart,
which agrees with the source whenever the requested periods are distinct). -/
def BreadthCalculator.computeMultipleSma (nD : ℕ) (cols : List (List Cell))
    (periods : List ℕ) : Option (List BreadthRow × List (ℕ × List Cell)) :=
  match periods with
  | [] => none
  | p0 :: rest =>
    match BreadthCalculator.compute nD cols p0 1 with
    | none => none
    | some base =>
      some (base, (rest.filter (fun p => ¬ p < 1)).map (fun p => (p, extraSmaColumn nD cols p)))

/-! ## Structural lemmas about the Simulation Engine -/

/-- The equity points of the date loop carry exactly the processed dates. -/
theorem map_fst_runFrom (p : BTPanel) (signals : List SignalRow) (slip : ℚ) :
    ∀ (dates : List ℕ) (st : BTState),
      ((runFrom p signals slip st dates).2).map Prod.fst = dates
  | [], _ => rfl
  | dt :: rest, st => by
    simp [runFrom, map_fst_runFrom p signals slip rest]

/-- The invariant carried by the simulation state: positive cash, and every
open position has positive quantity. -/
def GoodState (st : BTState) : Prop :=
  0 < st.cash ∧ ∀ e ∈ st.positions, 0 < e.2.qty

/-- A defined value read out of a price series with positive defined values
is positive. -/
theorem seriesGet_pos (row : List (ℕ × Cell))
    (hrow : ∀ e ∈ row, ∀ v, e.2 = some v → 0 < v) (t : ℕ) (price : ℚ)
    (hp : seriesGet row t none = some price) : 0 < price := by
  unfold seriesGet at hp
  cases hfind : row.find? (fun e => e.1 == t) with
  | none => rw [hfind] at hp; cases hp
  | some e =>
    rw [hfind] at hp
    exact hrow e (List.mem_of_find?_eq_some hfind) price hp

/-- A successful position lookup returns an entry of the position list. -/
theorem posLookup_mem (ps : List (ℕ × Position)) (t : ℕ) (pos : Position)
    (h : posLookup ps t = some pos) : ∃ k, (k, pos) ∈ ps := by
  unfold posLookup at h
  cases hfind : ps.find? (fun e => e.1 == t) with
  | none => rw [hfind] at h; cases h
  | some e =>
    rw [hfind] at h
    refine ⟨e.1, ?_⟩
    have he := List.mem_of_find?_eq_some hfind
    have : e.2 = pos := by simpa using h
    simpa [← this] using he

/-- Processing one ticker's signal preserves the state invariant, provided
defined closes are positive and the slippage fraction lies in `[0, 1]`. -/
theorem tradeStep_good (slip : ℚ) (row : List (ℕ × Cell)) (signals : List SignalRow)
    (dt : ℕ) (st : BTState) (t : ℕ)
    (hrow : ∀ e ∈ row, ∀ v, e.2 = some v → 0 < v)
    (_h0 : 0 ≤ slip) (h1 : slip ≤ 1) (hg : GoodState st) :
    GoodState (tradeStep slip row signals dt st t) := by
  unfold tradeStep
  cases firstSignal signals dt t with
  | none => exact hg
  | some sig =>
    cases hp : seriesGet row t none with
    | none => exact hg
    | some price =>
      have hprice : 0 < price := seriesGet_pos row hrow t price hp
      by_cases henter : sig = 1 ∧ posLookup st.positions t = none
      · simp only [henter, if_pos, and_self, if_true]
        constructor
        · have heq : st.cash - st.cash / (10 * price) * price * (1 + slip) =
              st.cash * ((9 - slip) / 10) := by
            field_simp
            ring
          simp only [heq]
          have h9 : 0 < (9 - slip) / 10 := by linarith
          exact mul_pos hg.1 h9
        · intro e he
          rcases List.mem_append.mp he with hmem | hmem
          · exact hg.2 e hmem
          · have : e = (t, ⟨st.cash / (10 * price), price⟩) := by simpa using hmem
            subst this
            exact div_pos hg.1 (by linarith)
      · dsimp only
        rw [if_neg henter]
        by_cases hexit : sig = -1
        · rw [if_pos hexit]
          cases hlook : posLookup st.positions t with
          | none => exact hg
          | some pos =>
            obtain ⟨k, hk⟩ := posLookup_mem st.positions t pos hlook
            have hqty : 0 < pos.qty := hg.2 (k, pos) hk
            constructor
            · have hnn : 0 ≤ pos.qty * price * (1 - slip) := by
                have := mul_nonneg (le_of_lt hqty) (le_of_lt hprice)
                exact mul_nonneg this (by linarith)
              have := hg.1
              simp only []
              linarith
            · intro e he
              exact hg.2 e ((List.eraseP_sublist st.positions).subset he)
        · rw [if_neg hexit]
          exact hg

/-- One whole day of trades preserves the state invariant. -/
theorem dayTrades_good (slip : ℚ) (row : List (ℕ × Cell)) (signals : List SignalRow)
    (dt : ℕ) (hrow : ∀ e ∈ row, ∀ v, e.2 = some v → 0 < v)
    (h0 : 0 ≤ slip) (h1 : slip ≤ 1) :
    ∀ (ts : List ℕ) (st : BTState), GoodState st →
      GoodState (ts.foldl (tradeStep slip row signals dt) st)
  | [], _, hg => hg
  | t :: ts, st, hg =>
    dayTrades_good slip row signals dt hrow h0 h1 ts _
      (tradeStep_good slip row signals dt st t hrow h0 h1 hg)

/-- Every state along the date loop satisfies the invariant. -/
theorem runStatesFrom_good (p : BTPanel) (signals : List SignalRow) (slip : ℚ)
    (hclose : ∀ dt, ∀ e ∈ p.closeRow dt, ∀ v, e.2 = some v → 0 < v)
    (h0 : 0 ≤ slip) (h1 : slip ≤ 1) :
    ∀ (dates : List ℕ) (st : BTState), GoodState st →
      ∀ s ∈ runStatesFrom p signals slip st dates, GoodState s
  | [], _, _, s, hs => by cases hs
  | dt :: rest, st, hg, s, hs => by
    have hg' : GoodState (dayTrades slip (p.closeRow dt) signals dt st) :=
      dayTrades_good slip (p.closeRow dt) signals dt (hclose dt) h0 h1 _ st hg
    rcases (by simpa [runStatesFrom] using hs :
        s = dayTrades slip (p.closeRow dt) signals dt st ∨
          s ∈ runStatesFrom p signals slip
              (dayTrades slip (p.closeRow dt) signals dt st) rest) with h | h
    · exact h ▸ hg'
    · exact runStatesFrom_good p signals slip hclose h0 h1 rest _ hg' s h

/-! ## Claim theorems for the Simulation Engine -/

/-- C5: for every panel and signal stream (and any starting cash and
slippage), the equity sequence of `Backtester.run` carries exactly one point
per date of the panel's date axis (`sorted(set(...))` of the panel dates),
in strictly ascending date order, regardless of the signals. -/
theorem run_one_point_per_date (p : BTPanel) (signals : List SignalRow) (cash0 slip : ℚ) :
    (Backtester.run p signals cash0 slip).map Prod.fst = dateAxis p ∧
    (dateAxis p).Sorted (· < ·) ∧
    ∀ d, d ∈ dateAxis p ↔ d ∈ p.rawDates := by
  refine ⟨map_fst_runFrom p signals slip (dateAxis p) _, ?_, ?_⟩
  · have hs : (dateAxis p).Sorted (· ≤ ·) := List.sorted_insertionSort _ _
    have hn : (dateAxis p).Nodup :=
      ((List.perm_insertionSort _ _).nodup_iff).mpr (List.nodup_dedup _)
    exact hs.lt_of_le hn
  · intro d
    exact ((List.perm_insertionSort _ _).mem_iff).trans List.mem_dedup

/-- C10: if every defined close in the panel is strictly positive, the
starting cash is positive and the slippage fraction lies in `[0, 1]`, then
the cash balance is strictly positive after every simulated date (each enter
debits `cash · (1 + slippage) / 10 < cash`; each exit credits a non-negative
amount). -/
theorem run_cash_stays_positive (p : BTPanel) (signals : List SignalRow) (cash0 slip : ℚ)
    (hclose : ∀ dt, ∀ e ∈ p.closeRow dt, ∀ v, e.2 = some v → 0 < v)
    (hcash : 0 < cash0) (h0 : 0 ≤ slip) (h1 : slip ≤ 1) :
    ∀ st ∈ runStates p signals cash0 slip, 0 < st.cash := by
  intro st hst
  exact (runStatesFrom_good p signals slip hclose h0 h1 (dateAxis p)
    { cash := cash0, positions := [] } ⟨hcash, by simp⟩ st hst).1

/-- Witness for C10 at a concrete one-date panel with no signals. -/
theorem run_cash_stays_positive_witness :
    0 < ({ cash := 1, positions := [] } : BTState).cash :=
  run_cash_stays_positive { rawDates := [0], closeRow := fun _ => [] } [] 1 0
    (by intro dt e he; cases he) one_pos le_rfl zero_le_one
    { cash := 1, positions := [] } (by decide)

/-! ## C1: quantity and cash debit of an "enter" signal -/

/-- Concrete one-date panel for the C1 scenario: close 12 on date 2. -/
def c1Panel : BTPanel :=
  { rawDates := [2], closeRow := fun _ => [(0, some 12)] }

/-- C1 counterexample: with current cash 1,000,000, close 12 and slippage
0.001, the code opens `qty = 1000000 / (10 · 12) = 25000/3 ≈ 8333.33` — not
the claimed `100000 / (12 · 1.001) ≈ 8325.01` — and debits
`100,100 = 0.10 · cash · 1.001`, not exactly the allocated 100,000. -/
theorem enter_quantity_counterexample :
    runStates c1Panel [⟨2, 0, 1⟩] 1000000 (1 / 1000) =
      [{ cash := 899900, positions := [(0, { qty := 25000 / 3, entry := 12 })] }] ∧
    (25000 / 3 : ℚ) ≠ 100000 / (12 * (1 + 1 / 1000)) ∧
    (1000000 - 899900 : ℚ) ≠ 100000 := by
  refine ⟨?_, by norm_num, by norm_num⟩
  simp only [runStates, runStatesFrom, dateAxis, c1Panel, List.dedup, List.pwFilter,
    List.insertionSort]
  norm_num [dayTrades, todaysTickers, firstSignal, tradeStep, seriesGet, posLookup,
    markToMarket, List.dedup, List.pwFilter, List.insertionSort, List.orderedInsert,
    List.filter, List.foldl, List.find?]

/-- C1 (amended): an "enter" signal on a date with a defined close and an
instrument not currently held opens a position with
`quantity = (0.10 · cash) / close` — the close **not** inflated by slippage —
at entry price equal to the raw close, and debits
`quantity · close · (1 + slippage) = 0.10 · cash · (1 + slippage)` from the
cash balance (slightly more than the allocated cash). -/
theorem enter_allocates_tenth_of_cash_at_close (slip : ℚ) (row : List (ℕ × Cell))
    (signals : List SignalRow) (dt : ℕ) (st : BTState) (t : ℕ) (price : ℚ)
    (hsig : firstSignal signals dt t = some 1)
    (hprice : seriesGet row t none = some price) (hpnz : price ≠ 0)
    (hnot : posLookup st.positions t = none) :
    tradeStep slip row signals dt st t =
      { cash := st.cash - st.cash / 10 * (1 + slip),
        positions := st.positions ++ [(t, { qty := st.cash / 10 / price, entry := price })] } := by
  unfold tradeStep
  rw [hsig, hprice]
  dsimp only
  rw [if_pos ⟨rfl, hnot⟩]
  simp only [BTState.mk.injEq]
  constructor
  · have : st.cash / (10 * price) * price * (1 + slip) = st.cash / 10 * (1 + slip) := by
      field_simp
      ring
    rw [this]
  · have : st.cash / (10 * price) = st.cash / 10 / price := by
      rw [div_div]
    rw [this]

/-- Witness for the amended C1 theorem on the concrete scenario: quantity
`100000 / 12`, debit `0.1 · 1000000 · 1.001`. -/
theorem enter_allocates_tenth_of_cash_at_close_witness :
    tradeStep (1 / 1000) [(0, some 12)] [⟨2, 0, 1⟩] 2 { cash := 1000000, positions := [] } 0 =
      { cash := 1000000 - 1000000 / 10 * (1 + 1 / 1000),
        positions := [(0, { qty := 1000000 / 10 / 12, entry := 12 })] } := by
  have h := enter_allocates_tenth_of_cash_at_close (1 / 1000) [(0, some 12)] [⟨2, 0, 1⟩] 2
    { cash := 1000000, positions := [] } 0 12 (by decide) (by decide) (by norm_num) (by decide)
  simpa using h

/-! ## C3: mark-to-market fallback policy -/

/-- The fold over the open positions underlying `markToMarket` swallows an
already-NaN accumulator. -/
theorem mtm_foldl_none (row : List (ℕ × Cell)) :
    ∀ ps : List (ℕ × Position),
      ps.foldl
        (fun acc e =>
          match acc, seriesGet row e.1 (some e.2.entry) with
          | some a, some p => some (a + e.2.qty * p)
          | _, _ => none)
        none = none
  | [] => rfl
  | e :: ps => by
    have h := mtm_foldl_none row ps
    simpa using h

/-- The price used for one open position: today's close when defined, the
entry price when the ticker is absent from the row. -/
def mtmPrice (row : List (ℕ × Cell)) (e : ℕ × Position) : ℚ :=
  match rowCell row e.1 with
  | some (some c) => c
  | _ => e.2.entry

/-- `seriesGet` is the stored cell when present, the default when absent. -/
theorem seriesGet_eq_getD (row : List (ℕ × Cell)) (t : ℕ) (d : Cell) :
    seriesGet row t d = (rowCell row t).getD d := by
  unfold seriesGet rowCell
  cases row.find? (fun e => e.1 == t) <;> rfl

/-- C3 counterexample panel: instrument 0 has close 10 on date 1 and a
present-but-NaN close on date 2. -/
def c3Panel : BTPanel :=
  { rawDates := [1, 2], closeRow := fun dt => if dt = 1 then [(0, some 10)] else [(0, none)] }

/-- C3 counterexample: enter instrument 0 on date 1 (cash 100, slippage 0,
quantity 1, entry 10, cash left 90).  On date 2 the instrument's close is
present in the panel but marked as no-value; the claim predicts equity
`cash + qty · entry = 90 + 1 · 10 = 100`, but the code propagates the NaN
price into the total and appends an undefined equity value. -/
theorem equity_nan_close_counterexample :
    Backtester.run c3Panel [⟨1, 0, 1⟩] 100 0 = [(1, some 100), (2, none)] ∧
    rowCell (c3Panel.closeRow 2) 0 = some none ∧
    (none : Cell) ≠ some ((90 : ℚ) + 1 * 10) := by
  refine ⟨?_, by decide, by decide⟩
  simp only [Backtester.run, runFrom, dateAxis, c3Panel, List.dedup, List.pwFilter,
    List.insertionSort]
  norm_num [dayTrades, todaysTickers, firstSignal, tradeStep, seriesGet, posLookup,
    markToMarket, List.dedup, List.pwFilter, List.insertionSort, List.orderedInsert,
    List.filter, List.foldl, List.find?]

/-- Characterization of the mark-to-market fold, by induction over the open
positions with a generalized cash accumulator. -/
theorem mtm_spec_aux (row : List (ℕ × Cell)) :
    ∀ (ps : List (ℕ × Position)) (c : ℚ),
      ((∀ e ∈ ps, rowCell row e.1 ≠ some none) →
        markToMarket row { cash := c, positions := ps } =
          some (c + (ps.map (fun e => e.2.qty * mtmPrice row e)).sum)) ∧
      ((∃ e ∈ ps, rowCell row e.1 = some none) →
        markToMarket row { cash := c, positions := ps } = none)
  | [], c => by
    constructor
    · intro _
      simp [markToMarket]
    · rintro ⟨e, he, -⟩
      cases he
  | e :: ps, c => by
    have hget : seriesGet row e.1 (some e.2.entry) = (rowCell row e.1).getD (some e.2.entry) :=
      seriesGet_eq_getD row e.1 (some e.2.entry)
    cases hcell : rowCell row e.1 with
    | none =>
      have hser : seriesGet row e.1 (some e.2.entry) = some e.2.entry := by
        rw [hget, hcell]; rfl
      have hprice : mtmPrice row e = e.2.entry := by
        unfold mtmPrice; rw [hcell]
      have hred : markToMarket row { cash := c, positions := e :: ps } =
          markToMarket row { cash := c + e.2.qty * e.2.entry, positions := ps } := by
        unfold markToMarket
        simp only [List.foldl_cons, hser]
      constructor
      · intro h
        rw [hred, (mtm_spec_aux row ps (c + e.2.qty * e.2.entry)).1
          (fun x hx => h x (List.mem_cons_of_mem e hx))]
        simp [hprice, add_assoc]
      · rintro ⟨x, hx, hxcell⟩
        rcases List.mem_cons.mp hx with hx | hx
        · rw [hx] at hxcell; rw [hxcell] at hcell; cases hcell
        · rw [hred]
          exact (mtm_spec_aux row ps (c + e.2.qty * e.2.entry)).2 ⟨x, hx, hxcell⟩
    | some cc =>
      cases cc with
      | none =>
        have hser : seriesGet row e.1 (some e.2.entry) = none := by
          rw [hget, hcell]; rfl
        have hred : markToMarket row { cash := c, positions := e :: ps } = none := by
          unfold markToMarket
          simp only [List.foldl_cons, hser]
          exact mtm_foldl_none row ps
        constructor
        · intro h
          exact absurd hcell (h e (List.mem_cons_self e ps))
        · intro _
          exact hred
      | some p =>
        have hser : seriesGet row e.1 (some e.2.entry) = some p := by
          rw [hget, hcell]; rfl
        have hprice : mtmPrice row e = p := by
          unfold mtmPrice; rw [hcell]
        have hred : markToMarket row { cash := c, positions := e :: ps } =
            markToMarket row { cash := c + e.2.qty * p, positions := ps } := by
          unfold markToMarket
          simp only [List.foldl_cons, hser]
        constructor
        · intro h
          rw [hred, (mtm_spec_aux row ps (c + e.2.qty * p)).1
            (fun x hx => h x (List.mem_cons_of_mem e hx))]
          simp [hprice, add_assoc]
        · rintro ⟨x, hx, hxcell⟩
          rcases List.mem_cons.mp hx with hx | hx
          · rw [hx] at hxcell; rw [hxcell] at hcell
            simp at hcell
          · rw [hred]
            exact (mtm_spec_aux row ps (c + e.2.qty * p)).2 ⟨x, hx, hxcell⟩

/-- C3 (amended): the appended equity value equals cash plus, for each open
position, quantity times that date's close when the close is defined, and
quantity times the entry price when the instrument is **absent** from that
date's price row — but when some held instrument's close is present and
marked as no-value, the equity value is undefined (the NaN propagates into
the total), not an entry-price fallback. -/
theorem markToMarket_fallback_policy (row : List (ℕ × Cell)) (st : BTState) :
    ((∀ e ∈ st.positions, rowCell row e.1 ≠ some none) →
      markToMarket row st =
        some (st.cash + (st.positions.map (fun e => e.2.qty * mtmPrice row e)).sum)) ∧
    ((∃ e ∈ st.positions, rowCell row e.1 = some none) → markToMarket row st = none) :=
  mtm_spec_aux row st.positions st.cash

/-- Witness for the amended C3 theorem: one position with a defined close, one
position absent from the row (entry-price fallback), and — in the second
conjunct — a position whose close is present but NaN. -/
theorem markToMarket_fallback_policy_witness :
    markToMarket [(0, some 5)] { cash := 100, positions := [(0, ⟨2, 3⟩), (2, ⟨4, 7⟩)] } =
      some 138 ∧
    markToMarket [(1, none)] { cash := 100, positions := [(1, ⟨2, 3⟩)] } = none := by
  constructor
  · have h := (markToMarket_fallback_policy [(0, some 5)]
      { cash := 100, positions := [(0, ⟨2, 3⟩), (2, ⟨4, 7⟩)] }).1 (by decide)
    rw [h]
    norm_num [mtmPrice, rowCell]
  · exact (markToMarket_fallback_policy [(1, none)]
      { cash := 100, positions := [(1, ⟨2, 3⟩)] }).2 ⟨(1, ⟨2, 3⟩), by decide, by decide⟩

/-! ## C2: KPI summary on short curves -/

/-- C2 counterexample: a one-point equity curve has fewer than 2 points, yet
`KPIReport.summary` returns a summary (total return 0, volatility NaN,
Sharpe NaN) instead of failing — the source performs no length check. -/
theorem kpi_short_curve_counterexample :
    ([100] : List ℚ).length < 2 ∧ (KPIReport.summary [100]).isSome = true := by
  constructor
  · decide
  · rfl

/-- C2 (amended): `KPIReport.summary` fails only on the empty curve (where
the `iloc` lookups raise an index error); every non-empty curve — including
a one-point curve — produces a summary. -/
theorem kpi_summary_fails_iff_empty (eq : List ℚ) :
    KPIReport.summary eq = none ↔ eq = [] := by
  cases eq with
  | nil => simp [KPIReport.summary]
  | cons e0 rest => simp [KPIReport.summary]

/-! ## C9: momentum and volume-rank outputs are fully defined -/

/-- C9: for every panel grid and period, every cell of `momentum(period)`
and of `volume_rank(period)` is defined — the trailing `fillna(0)` replaces
every undefined cell (insufficient history or missing input) with 0. -/
theorem momentum_volumeRank_no_undefined (cols : List (ℕ × List Cell)) (period : ℕ) :
    (∀ c ∈ RankingHandler.momentum cols period, ∀ x ∈ c.2, x.isSome = true) ∧
    (∀ c ∈ RankingHandler.volumeRank cols period, ∀ x ∈ c.2, x.isSome = true) := by
  constructor
  · intro c hc x hx
    obtain ⟨c0, _, rfl⟩ := List.mem_map.mp hc
    obtain ⟨y, _, rfl⟩ := List.mem_map.mp hx
    rfl
  · intro c hc x hx
    obtain ⟨c0, _, rfl⟩ := List.mem_map.mp hc
    obtain ⟨y, _, rfl⟩ := List.mem_map.mp hx
    rfl

/-- Witness for C9 on a concrete one-column grid whose raw momentum cells are
all undefined. -/
theorem momentum_volumeRank_no_undefined_witness :
    (some (0 : ℚ)).isSome = true :=
  (momentum_volumeRank_no_undefined [(0, [none, some 5])] 1).1
    (0, [some 0, some 0]) (by decide) (some 0) (by decide)

/-! ## C7: get_top_n -/

/-- A successful `getLast?` returns an element of the list. -/
theorem mem_of_getLast?_eq {α : Type} {l : List α} {a : α} (h : l.getLast? = some a) :
    a ∈ l := by
  have hx : a ∈ l.getLast? := by rw [h]; rfl
  obtain ⟨hne, rfl⟩ := List.mem_getLast?_eq_getLast hx
  exact List.getLast_mem hne

/-- Every entry produced by `definedCellsFrom` is a defined cell of the row,
at the recorded column offset. -/
theorem definedCellsFrom_mem :
    ∀ (r : List Cell) (i : ℕ) (e : ℕ × ℚ), e ∈ definedCellsFrom i r →
      i ≤ e.1 ∧ r.getD (e.1 - i) none = some e.2
  | [], _, _, he => absurd he (List.not_mem_nil _)
  | none :: cs, i, e, he => by
    have h := definedCellsFrom_mem cs (i + 1) e (by simpa [definedCellsFrom] using he)
    refine ⟨by omega, ?_⟩
    have hidx : e.1 - i = (e.1 - (i + 1)) + 1 := by omega
    rw [hidx]
    simpa using h.2
  | some v :: cs, i, e, he => by
    rcases (by simpa [definedCellsFrom] using he :
        e = (i, v) ∨ e ∈ definedCellsFrom (i + 1) cs) with h | h
    · subst h
      simp
    · have h' := definedCellsFrom_mem cs (i + 1) e h
      refine ⟨by omega, ?_⟩
      have hidx : e.1 - i = (e.1 - (i + 1)) + 1 := by omega
      rw [hidx]
      simpa using h'.2

/-- `topOfRow` returns at most `n` entries. -/
theorem topOfRow_length (r : List Cell) (n : ℕ) : (topOfRow r n).length ≤ n := by
  unfold topOfRow
  split
  · simp
  · exact List.length_take_le n _

/-- `topOfRow` is sorted by descending value. -/
theorem topOfRow_sorted (r : List Cell) (n : ℕ) : List.Sorted descVal (topOfRow r n) := by
  unfold topOfRow
  split
  · simp
  · exact List.Pairwise.sublist (List.take_sublist n _) (List.sorted_insertionSort descVal _)

/-- Every entry of `topOfRow` is a defined cell of the row. -/
theorem topOfRow_mem (r : List Cell) (n : ℕ) (e : ℕ × ℚ) (he : e ∈ topOfRow r n) :
    r.getD e.1 none = some e.2 := by
  unfold topOfRow at he
  split at he
  · cases he
  · have h1 : e ∈ List.insertionSort descVal (definedCells r) :=
      List.take_subset n _ he
    have h2 : e ∈ definedCells r := (List.perm_insertionSort descVal _).mem_iff.mp h1
    have h3 := definedCellsFrom_mem r 0 e h2
    simpa using h3.2

/-- On a non-empty list `getLast?` is never `none`. -/
theorem getLast?_eq_none_imp {α : Type} (l : List α) (h : l.getLast? = none) : l = [] := by
  cases l with
  | nil => rfl
  | cons a t =>
    exfalso
    cases hx : (a :: t).getLast? with
    | none =>
      have : (a :: t) ≠ [] := by simp
      obtain ⟨y, hy⟩ := List.getLast?_isSome.mpr this |> Option.isSome_iff_exists.mp
      rw [hy] at hx
      cases hx
    | some b => rw [hx] at h; cases h

/-- The target row chosen by `getTopN` is a surviving row, whatever the
requested date. -/
theorem targetRow_mem (kt : List (ℕ × List Cell)) (lastRow : ℕ × List Cell)
    (date : Option ℕ) (hlast : kt.getLast? = some lastRow) :
    targetRow kt lastRow date ∈ kt := by
  unfold targetRow
  cases date with
  | none => exact mem_of_getLast?_eq hlast
  | some d =>
    dsimp only
    cases hfind : kt.find? (fun r => r.1 == d) with
    | none =>
      dsimp only
      exact mem_of_getLast?_eq hlast
    | some r =>
      dsimp only
      exact List.mem_of_find?_eq_some hfind

/-- `getTopN` either returns `[]` because every row was dropped, or returns
`topOfRow` of some surviving row. -/
theorem getTopN_cases (metric : List (ℕ × List Cell)) (n : ℕ) (date : Option ℕ) :
    (RankingHandler.getTopN metric n date = [] ∧ keptTable metric = []) ∨
    ∃ target ∈ keptTable metric,
      RankingHandler.getTopN metric n date = topOfRow target.2 n := by
  unfold RankingHandler.getTopN
  cases hlast : (keptTable metric).getLast? with
  | none =>
    left
    exact ⟨rfl, getLast?_eq_none_imp _ hlast⟩
  | some lastRow =>
    right
    exact ⟨targetRow (keptTable metric) lastRow date,
      targetRow_mem _ lastRow date hlast, rfl⟩

/-- C7: `get_top_n` returns at most `n` entries, sorted by descending value,
each being a defined cell of some metric row; it returns `[]` when no date
has any defined value; a requested date absent from the surviving rows falls
back to the behaviour of an omitted date, which ranks the last (i.e. latest)
row still holding a defined value. -/
theorem getTopN_spec (metric : List (ℕ × List Cell)) (n : ℕ) (date : Option ℕ) :
    (RankingHandler.getTopN metric n date).length ≤ n ∧
    ((RankingHandler.getTopN metric n date).map Prod.snd).Sorted (· ≥ ·) ∧
    (∀ e ∈ RankingHandler.getTopN metric n date, ∃ r ∈ metric, r.2.getD e.1 none = some e.2) ∧
    (keptTable metric = [] → RankingHandler.getTopN metric n date = []) ∧
    (∀ d, (keptTable metric).find? (fun r => r.1 == d) = none →
      RankingHandler.getTopN metric n (some d) = RankingHandler.getTopN metric n none) ∧
    (∀ lastRow, (keptTable metric).getLast? = some lastRow →
      RankingHandler.getTopN metric n none = topOfRow lastRow.2 n) := by
  refine ⟨?_, ?_, ?_, ?_, ?_, ?_⟩
  · rcases getTopN_cases metric n date with ⟨h, -⟩ | ⟨t, -, h⟩
    · simp [h]
    · rw [h]; exact topOfRow_length t.2 n
  · rcases getTopN_cases metric n date with ⟨h, -⟩ | ⟨t, -, h⟩
    · simp [h, List.Sorted]
    · rw [h]
      have hs := topOfRow_sorted t.2 n
      exact (List.pairwise_map).mpr hs
  · intro e he
    rcases getTopN_cases metric n date with ⟨h, -⟩ | ⟨t, ht, h⟩
    · rw [h] at he; cases he
    · rw [h] at he
      exact ⟨t, List.mem_of_mem_filter ht, topOfRow_mem t.2 n e he⟩
  · intro hK
    rcases getTopN_cases metric n date with ⟨h, -⟩ | ⟨t, ht, -⟩
    · exact h
    · rw [hK] at ht; cases ht
  · intro d hfind
    unfold RankingHandler.getTopN
    cases hlast : (keptTable metric).getLast? with
    | none => rfl
    | some lastRow =>
      dsimp only
      unfold targetRow
      dsimp only
      rw [hfind]
  · intro lastRow hlast
    unfold RankingHandler.getTopN
    rw [hlast]
    dsimp only
    unfold targetRow
    rfl

/-- Witness for C7 on a concrete metric table with an all-NaN row, a partly
defined row, and a requested date (7) absent from the table. -/
theorem getTopN_spec_witness :
    (RankingHandler.getTopN [(1, [none, none]), (2, [some 3, some 5]), (3, [some 9, none])]
      1 (some 7)).length ≤ 1 :=
  (getTopN_spec [(1, [none, none]), (2, [some 3, some 5]), (3, [some 9, none])] 1 (some 7)).1

/-! ## C8: cumulative relative strength at the first valid date -/

/-- A benchmark column with at least one defined close keeps at least one row
after the `notna` restriction. -/
theorem keptRows_ne_nil (bcol2 : List Cell) (hany : bcol2.any (fun c => c.isSome) = true) :
    keptRows bcol2 ≠ [] := by
  obtain ⟨x, hx, hs⟩ := List.any_eq_true.mp hany
  obtain ⟨k, hk⟩ := List.mem_iff_get.mp hx
  apply List.ne_nil_of_mem (a := k.val)
  unfold keptRows
  refine List.mem_filter.mpr ⟨List.mem_range.mpr k.isLt, ?_⟩
  have : bcol2.getD k.val none = x := by
    rw [List.getD_eq_getD_get?, List.get?_eq_get k.isLt, hk]
    rfl
  rw [this]
  exact hs

/-- `pct_change(1)` always yields NaN at the first row. -/
theorem pctChangePad_one_cons (x : Cell) (xs : List Cell) :
    ∃ t, pctChangePad 1 (x :: xs) = none :: t := by
  unfold pctChangePad
  rw [List.length_cons, List.range_succ_eq_map, List.map_cons]
  exact ⟨_, rfl⟩

/-- The cumulative-return index starts at `1 · (1 + 0)` whenever the
restricted frame has at least one row. -/
theorem rsCum_cons (k : ℕ) (ks : List ℕ) (col : List Cell) :
    ∃ t, rsCum (k :: ks) col = ((1 : ℚ) * (1 + 0)) :: t := by
  unfold rsCum rsRets restrictCol cumprod
  rw [List.map_cons]
  obtain ⟨t, ht⟩ := pctChangePad_one_cons (col.getD k none) (ks.map (fun i => col.getD i none))
  rw [ht, List.map_cons, List.map_cons]
  exact ⟨_, rfl⟩

/-- C8: whenever the benchmark is a column of the panel and has at least one
defined close, every instrument column of
`relative_strength(benchmark, "cumulative")` equals 1 at the first date on
which the benchmark close is defined (the first row of the restricted
frame). -/
theorem relativeStrength_cumulative_first_is_one
    (cols : List (ℕ × List Cell)) (bench : ℕ) (bcol : ℕ × List Cell)
    (hfind : cols.find? (fun c => c.1 == bench) = some bcol)
    (hany : bcol.2.any (fun c => c.isSome) = true)
    (res : List (ℕ × List ℚ))
    (hres : RankingHandler.relativeStrength cols bench RSMethod.cumulative = some res) :
    ∀ c ∈ res, c.2.head? = some 1 := by
  unfold RankingHandler.relativeStrength at hres
  rw [hfind] at hres
  dsimp only at hres
  have hres' : res = (cols.filter (fun c => ¬ c.1 == bench)).map (fun c =>
      (c.1, List.zipWith (fun x b => x / b)
        (rsCum (keptRows bcol.2) c.2) (rsCum (keptRows bcol.2) bcol.2))) :=
    (Option.some.inj hres).symm
  intro c hc
  rw [hres'] at hc
  obtain ⟨c0, _, rfl⟩ := List.mem_map.mp hc
  dsimp only
  obtain ⟨k, ks, hk⟩ := List.exists_cons_of_ne_nil (keptRows_ne_nil bcol.2 hany)
  rw [hk]
  obtain ⟨t1, ht1⟩ := rsCum_cons k ks c0.2
  obtain ⟨t2, ht2⟩ := rsCum_cons k ks bcol.2
  rw [ht1, ht2, List.zipWith_cons_cons, List.head?_cons]
  norm_num

/-- Witness for C8 on a two-instrument panel (benchmark 0 with closes 2, 4;
instrument 1 with closes 3, 3): the relative-strength column of instrument 1
is `[1, 1/2]`, and its first entry is 1. -/
theorem relativeStrength_cumulative_first_is_one_witness :
    ((1 : ℕ), [(1 : ℚ), 1 / 2]).2.head? = some 1 := by
  have hres : RankingHandler.relativeStrength
      [(0, [some 2, some 4]), (1, [some 3, some 3])] 0 RSMethod.cumulative =
        some [(1, [1, 1 / 2])] := by
    norm_num [RankingHandler.relativeStrength, rsCum, rsRets, keptRows, restrictCol,
      pctChangePad, ffill, ffillFrom, cumprod, cumprodFrom, List.find?, List.filter,
      List.range_succ, List.foldl]
  exact relativeStrength_cumulative_first_is_one
    [(0, [some 2, some 4]), (1, [some 3, some 3])] 0 (0, [some 2, some 4])
    (by rfl) (by rfl) [(1, [1, 1 / 2])] hres
    (1, [1, 1 / 2]) (List.mem_singleton.mpr rfl)

/-! ## C6: breadth ratios lie in the unit interval -/

/-- Filtering with a stronger predicate keeps at most as many elements. -/
theorem length_filter_mono {α : Type} (l : List α) (p q : α → Bool)
    (h : ∀ a, p a = true → q a = true) :
    (l.filter p).length ≤ (l.filter q).length := by
  induction l with
  | nil => simp
  | cons a t ih =>
    simp only [List.filter_cons]
    by_cases hp : p a = true
    · rw [if_pos hp, if_pos (h a hp)]
      simp only [List.length_cons]
      omega
    · rw [if_neg hp]
      by_cases hq : q a = true
      · rw [if_pos hq]
        simp only [List.length_cons]
        omega
      · rw [if_neg hq]
        exact ih

/-- Any count of pairs with `close > sma` is bounded by the count of pairs
with both values defined. -/
theorem countPairAt_above_le (cols smaCols : List (List Cell)) (i : ℕ) :
    countPairAt cols smaCols i closeAbove ≤ countPairAt cols smaCols i bothDefined := by
  unfold countPairAt
  apply length_filter_mono
  intro cs hcs
  cases hc : cs.1.getD i none with
  | none =>
    rw [hc] at hcs
    simp [closeAbove] at hcs
  | some cv =>
    cases hm : cs.2.getD i none with
    | none =>
      rw [hc, hm] at hcs
      simp [closeAbove] at hcs
    | some mv =>
      simp [bothDefined]

/-- A ratio of a count over a larger positive count lies in `[0, 1]`. -/
theorem count_ratio_bounds (a b : ℕ) (hab : a ≤ b) (hb : 0 < b) :
    0 ≤ (a : ℚ) / (b : ℚ) ∧ (a : ℚ) / (b : ℚ) ≤ 1 := by
  constructor
  · exact div_nonneg (by positivity) (by positivity)
  · rw [div_le_one (by exact_mod_cast hb)]
    exact_mod_cast hab

/-- C6: every defined `advance_ratio` and `pct_above_sma` value of the
Breadth Engine lies in `[0, 1]` — both in the single-window `compute` table
and in every appended `pct_above_sma_{period}` column of the multi-window
variant. -/
theorem breadth_ratios_in_unit_interval :
    (∀ nD cols p m rows, BreadthCalculator.compute nD cols p m = some rows →
      ∀ row ∈ rows,
        (∀ r, row.advRatio = some r → 0 ≤ r ∧ r ≤ 1) ∧
        (∀ r, row.pctAboveSma = some r → 0 ≤ r ∧ r ≤ 1)) ∧
    (∀ nD cols ps base extras,
      BreadthCalculator.computeMultipleSma nD cols ps = some (base, extras) →
      ∀ e ∈ extras, ∀ c ∈ e.2, ∀ r, c = some r → 0 ≤ r ∧ r ≤ 1) := by
  constructor
  · intro nD cols p m rows hrows row hrow
    unfold BreadthCalculator.compute at hrows
    by_cases hp : p < 1
    · rw [if_pos hp] at hrows; cases hrows
    rw [if_neg hp] at hrows
    by_cases hempty : cols.isEmpty ∨ nD = 0
    · rw [if_pos hempty] at hrows
      rcases Option.some.inj hrows with rfl
      cases hrow
    rw [if_neg hempty] at hrows
    rcases (Option.some.inj hrows).symm with rfl
    obtain ⟨i, -, rfl⟩ := List.mem_map.mp hrow
    dsimp only
    by_cases hmask : countAt (cols.map (pctChangePad 1)) i cellSome < m
    · rw [if_pos hmask]
      refine ⟨?_, ?_⟩ <;> intro r hr <;> exact absurd hr (by simp [maskedRow])
    rw [if_neg hmask]
    constructor
    · intro r hr
      dsimp only at hr
      split at hr
      · rcases Option.some.inj hr with rfl
        rename_i hpos
        have hle : countAt (cols.map (pctChangePad 1)) i cellPos ≤
            countAt (cols.map (pctChangePad 1)) i cellPos +
              countAt (cols.map (pctChangePad 1)) i cellNeg := Nat.le_add_right _ _
        have := count_ratio_bounds _ _ hle hpos
        constructor
        · exact le_trans (le_refl 0) (by push_cast at this ⊢; exact this.1)
        · push_cast at this ⊢
          exact this.2
      · cases hr
    · intro r hr
      dsimp only at hr
      split at hr
      · rcases Option.some.inj hr with rfl
        rename_i hpos
        exact count_ratio_bounds _ _
          (countPairAt_above_le cols (cols.map (rollingMean p (max 1 (p / 2)))) i) hpos
      · cases hr
  · intro nD cols ps base extras hres e he c hc r hr
    unfold BreadthCalculator.computeMultipleSma at hres
    cases ps with
    | nil => cases hres
    | cons p0 rest =>
      dsimp only at hres
      cases hbase : BreadthCalculator.compute nD cols p0 1 with
      | none => rw [hbase] at hres; cases hres
      | some b =>
        rw [hbase] at hres
        dsimp only at hres
        rcases Prod.mk.injEq .. ▸ Option.some.inj hres with ⟨-, hextras⟩
        rw [← hextras] at he
        obtain ⟨per, -, rfl⟩ := List.mem_map.mp he
        dsimp only at hc
        unfold extraSmaColumn at hc
        obtain ⟨i, -, rfl⟩ := List.mem_map.mp hc
        dsimp only at hr
        split at hr
        · rcases Option.some.inj hr with rfl
          rename_i hpos
          exact count_ratio_bounds _ _
            (countPairAt_above_le cols (cols.map (rollingMean per (max 1 (per / 2)))) i) hpos
        · cases hr

/-- Witness for C6 on a concrete flat-price grid: on the second date the
`pct_above_sma_1` ratio is the defined value 0, which lies in `[0, 1]`. -/
theorem breadth_ratios_in_unit_interval_witness :
    (0 : ℚ) ≤ 0 ∧ (0 : ℚ) ≤ 1 := by
  have hrows : BreadthCalculator.compute 2 [[some 10, some 10]] 1 1 =
      some [maskedRow,
        { advancers := some 0, decliners := some 0, unchanged := some 1,
          totalStocks := some 1, advRatio := none, pctAboveSma := some 0,
          validForSma := some 1 }] := by
    norm_num [BreadthCalculator.compute, maskedRow, countAt, countPairAt, cellSome, cellPos,
      cellNeg, cellZero, closeAbove, bothDefined, pctChangePad, ffill, ffillFrom, rollingMean,
      List.range_succ, List.filter_cons, List.filter_nil, List.filterMap_cons,
      List.filterMap_nil, List.zip_cons_cons]
    intro h
    cases h
  exact ((breadth_ratios_in_unit_interval).1 2 [[some 10, some 10]] 1 1 _ hrows
    { advancers := some 0, decliners := some 0, unchanged := some 1,
      totalStocks := some 1, advRatio := none, pctAboveSma := some 0,
      validForSma := some 1 } (by simp)).2 0 rfl

/-! ## C4: the hard masking step and the multi-window variant -/

set_option maxHeartbeats 1000000 in
/-- C4 counterexample: one instrument with closes 10, 11 and periods
`[50, 2]`.  On the first date the valid-return count is 0, below the
minimum 1, so `compute`'s row is entirely masked — yet the appended
`pct_above_sma_2` column holds the defined value 0 on that date: the
masking does not extend to the columns appended by the multi-window
variant. -/
theorem breadth_masking_counterexample :
    BreadthCalculator.computeMultipleSma 2 [[some 10, some 11]] [50, 2] =
      some ([maskedRow,
        { advancers := some 1, decliners := some 0, unchanged := some 0,
          totalStocks := some 1, advRatio := some 1, pctAboveSma := none,
          validForSma := some 0 }],
        [(2, [some 0, some 1])]) ∧
    maskedRow.totalStocks = none ∧
    (some (0 : ℚ)) ≠ (none : Cell) := by
  refine ⟨?_, rfl, by decide⟩
  norm_num [BreadthCalculator.computeMultipleSma, BreadthCalculator.compute, extraSmaColumn,
    maskedRow, countAt, countPairAt, cellSome, cellPos, cellNeg, cellZero, closeAbove,
    bothDefined, pctChangePad, ffill, ffillFrom, rollingMean, List.range_succ,
    List.filter_cons, List.filter_nil, List.filterMap_cons, List.filterMap_nil,
    List.zip_cons_cons]
  intro h
  cases h

/-- C4 (amended): in the single-window `compute` table the masking does hold:
every date whose valid-return count is below the configured minimum has every
field of its row reset to undefined, overriding any partially computed value;
the `pct_above_sma_{period}` columns appended by the multi-window variant,
however, are computed from the raw closes after the masking and are not
masked. -/
theorem compute_masks_insufficient_rows (nD : ℕ) (cols : List (List Cell)) (p m i : ℕ)
    (rows : List BreadthRow)
    (hrows : BreadthCalculator.compute nD cols p m = some rows)
    (hi : i < nD) (hcols : cols.isEmpty = false)
    (hmask : countAt (cols.map (pctChangePad 1)) i cellSome < m) :
    rows[i]? = some maskedRow := by
  unfold BreadthCalculator.compute at hrows
  by_cases hp : p < 1
  · rw [if_pos hp] at hrows; cases hrows
  rw [if_neg hp] at hrows
  have hne : ¬ (cols.isEmpty ∨ nD = 0) := by
    rintro (h | h)
    · rw [hcols] at h; cases h
    · omega
  rw [if_neg hne] at hrows
  rcases (Option.some.inj hrows).symm with rfl
  rw [List.getElem?_map, List.getElem?_range hi]
  simp only [Option.map_some']
  rw [if_pos hmask]

/-- Witness for the amended C4 theorem: a one-date, one-instrument grid whose
single date has no valid return and is therefore fully masked. -/
theorem compute_masks_insufficient_rows_witness :
    ([maskedRow] : List BreadthRow)[0]? = some maskedRow :=
  compute_masks_insufficient_rows 1 [[some 5]] 50 1 0 [maskedRow]
    (by decide) (by decide) (by decide) (by decide)

end Algo
